import Mathlib

/-
Verification development for the `progress_downloader` crate
(`src/lib.rs`, one file of 192 lines).

The crate downloads a batch of files: `DownloadProgress::download` fans the
`(url, path)` pairs out with `futures::future::try_join_all`, and
`inner_download` runs one resumable transfer wrapped in
`backoff::future::retry`.  Inside the retry closure the code:
  * probes `temp_file.metadata().len()` (0 when absent) into
    `downloaded_size` (line 77),
  * sends a GET with header `Range: bytes={downloaded_size}-` (lines 79-92),
  * treats a non-success HTTP status as a transient error (lines 94-105),
  * sets `supports_resume = status == PARTIAL_CONTENT` (line 107),
  * computes `total_size = content_length.unwrap_or(0) + downloaded_size`
    (lines 109-111),
  * opens the temp file with
    `truncate(!supports_resume || downloaded_size == 0)` and
    `append(supports_resume && downloaded_size > 0)` (lines 115-122),
  * streams chunks through a `BufWriter` with capacity 1 MiB, flushing when
    the buffer holds at least 512 KiB (lines 124-163),
  * flushes unconditionally, calls `finish_with_message`, and only then
    renames the temp file onto the destination path (lines 165-178).

The temp path is `env::temp_dir().join(path)` (lines 71-72): note that
`join` is applied to the whole destination path, and Rust's `Path::join`
replaces the base entirely when its argument is absolute.

Machine integers (`u64` sizes) are modelled as `Nat`: all arithmetic in the
source is addition of byte counts far from 2^64, with no wrapping behaviour.
External collaborators (reqwest, tokio fs/io, the backoff retry driver and
the indicatif progress bars) are modelled as an explicit environment: the
`Env` of one attempt says what the transport returns and which local
filesystem operations fail, and the attempt function replays the exact
branch structure of the retry closure against it.
-/

namespace ProgressDownloader

/-- A byte string; each element is one byte. -/
abbrev Bytes := List Nat

/-- A filesystem path: an absolute/relative flag plus its components.
`env::temp_dir()` is absolute; the destination string of a task may be
either. -/
structure Path where
  absolute : Bool
  components : List String
deriving DecidableEq, Repr

/-- Rust `Path::join` semantics (`std::path::Path::join`): joining an
absolute path replaces the base entirely, otherwise the components are
appended. -/
def Path.join (base p : Path) : Path :=
  if p.absolute then p else ⟨base.absolute, base.components ++ p.components⟩

/-- The process-scoped temporary directory `env::temp_dir()` (line 71). -/
def tempDir : Path := ⟨true, ["tmp"]⟩

/-- Line 72: `let temp_file = temp_dir.join(path);` — the whole destination
path is joined, not its basename. -/
def tempFilePath (path : Path) : Path := Path.join tempDir path

/-- The final component of a path, as a relative single-component path
(empty when the path has no components). -/
def Path.basename (p : Path) : Path := ⟨false, p.components.getLast?.toList⟩

/-- Spec-side definition, for comparison with `tempFilePath`: the spec's
words say the temp file is "located by a process-scoped temporary directory
joined with the destination's basename". -/
def specTempPath (dest : Path) : Path := Path.join tempDir (Path.basename dest)

/-- The local filesystem: an association list from paths to file contents. -/
abbrev Fs := List (Path × Bytes)

/-- Content stored at a path, if the file exists. -/
def fsGet : Fs → Path → Option Bytes
  | [], _ => none
  | e :: rest, p => if e.1 = p then some e.2 else fsGet rest p

/-- Create or overwrite the file at a path. -/
def fsSet : Fs → Path → Bytes → Fs
  | [], p, b => [(p, b)]
  | e :: rest, p, b => if e.1 = p then (p, b) :: rest else e :: fsSet rest p b

/-- Delete the file at a path. -/
def fsRemove : Fs → Path → Fs
  | [], _ => []
  | e :: rest, p => if e.1 = p then fsRemove rest p else e :: fsRemove rest p

/-- Append bytes to the file at a path (creating it when absent): the
effect of a write on a file opened in append mode, or of sequential writes
to a freshly truncated file. -/
def fsAppend (fs : Fs) (p : Path) (data : Bytes) : Fs :=
  fsSet fs p ((fsGet fs p).getD [] ++ data)

/-- Line 77: `temp_file.metadata().map(|item| item.len()).unwrap_or(0)` —
the on-disk length of a file, 0 when it does not exist. -/
def fsLen (fs : Fs) (p : Path) : Nat := ((fsGet fs p).map List.length).getD 0

/-- Flush threshold of the streaming loop (line 157): `512 * 1024`. -/
def flushThreshold : Nat := 512 * 1024

/-- Capacity of the `BufWriter` (line 124): `1024 * 1024`. -/
def bufCapacity : Nat := 1024 * 1024

/-- `http::StatusCode::is_success()` (used at line 94): 200 ≤ status ≤ 299. -/
def isSuccessStatus (s : Nat) : Bool := 200 ≤ s && s ≤ 299

/-- Observable operations performed by one attempt, in program order:
the outgoing range request, filesystem opens/writes/renames, and the
progress-bar calls. -/
inductive Event where
  | request (offset : Nat)
  | openFile (p : Path) (truncateFlag appendFlag : Bool)
  | setLength (n : Nat)
  | setPosition (n : Nat)
  | writeFile (p : Path) (data : Bytes)
  | finishMessage
  | renameFile (src dst : Path)
deriving DecidableEq, Repr

/-- The path an event writes to (creating, truncating, appending or
renaming onto it), if any. -/
def Event.writesTo : Event → Option Path
  | Event.openFile p _ _ => some p
  | Event.writeFile p _ => some p
  | Event.renameFile _ dst => some dst
  | _ => none

/-- The error sites of the retry closure. -/
inductive Err where
  | sendErr (isRetry : Bool)
  | httpStatus (status : Nat)
  | timeoutErr
  | streamErr (isRetry : Bool)
  | openErr
  | writeErr
  | flushErr
  | renameErr
  | retriesExhausted
deriving DecidableEq, Repr

/-- A classified failure, mirroring `backoff::Error`: `transient` re-enters
the retry schedule, `permanent` aborts it. -/
inductive Classified where
  | transient (e : Err)
  | permanent (e : Err)
deriving DecidableEq, Repr

/-- Lines 190-192: `is_retry_error` returns whether the reqwest error is a
timeout / connect / request / decode error.  The nature of the underlying
transport error is abstracted into the Bool carried by the environment. -/
def is_retry_error (isRetry : Bool) : Bool := isRetry

/-- One item delivered by `stream.next()` under the 500 ms timeout
(lines 133-143): a data chunk, a timeout of the chunk read, or a stream
error carrying its `is_retry_error` classification. -/
inductive ChunkEvent where
  | chunk (data : Bytes)
  | timeout
  | streamErr (isRetry : Bool)
deriving DecidableEq, Repr

/-- What `request.send()` produces: a response (status, `content_length()`,
and the body's chunk stream) or a transport error with its
`is_retry_error` classification. -/
inductive SendOutcome where
  | ok (status : Nat) (contentLength : Option Nat) (chunks : List ChunkEvent)
  | err (isRetry : Bool)
deriving DecidableEq, Repr

/-- The environment of one attempt: the transport outcome plus which local
filesystem operations fail (each flag fails the first such operation of the
attempt; the attempt aborts there, so at most one is ever consulted). -/
structure Env where
  send : SendOutcome
  openFails : Bool
  writeFails : Bool
  flushFails : Bool
  renameFails : Bool
deriving DecidableEq, Repr

/-- Decidable equality for attempt results, so that witnesses can be
checked by evaluation. -/
instance exceptDecEq {ε α : Type} [DecidableEq ε] [DecidableEq α] :
    DecidableEq (Except ε α)
  | Except.ok a, Except.ok b =>
      if h : a = b then isTrue (by rw [h])
      else isFalse (by intro hc; cases hc; exact h rfl)
  | Except.ok _, Except.error _ => isFalse (by intro hc; cases hc)
  | Except.error _, Except.ok _ => isFalse (by intro hc; cases hc)
  | Except.error e, Except.error f =>
      if h : e = f then isTrue (by rw [h])
      else isFalse (by intro hc; cases hc; exact h rfl)

/-- Modelled from the spec: `DownloadState` lives in `src/state.rs`
(declared by `mod state;` at line 10 and used at lines 113 and 149), which
is not present under `src/`.  Per the spec (§3 and §4.3 Streaming), the
state holds `{ url, downloaded_bytes, total_bytes }` and each chunk
"increment[s] `downloaded_bytes`, notif[ies] ProgressSink of the new
position". -/
structure DownloadState where
  url : String
  downloaded_bytes : Nat
  total_bytes : Nat
deriving DecidableEq, Repr

/-- Modelled from the spec: `DownloadState::new(url, downloaded, total)`
(line 113). -/
def DownloadState.new (url : String) (downloaded total : Nat) : DownloadState :=
  ⟨url, downloaded, total⟩

/-- Modelled from the spec: `state.update_progress(chunk.len(), &bar)`
(line 149) adds the chunk length to the internal counter; the new counter
value is the position reported to the progress bar. -/
def DownloadState.update_progress (s : DownloadState) (n : Nat) : DownloadState :=
  { s with downloaded_bytes := s.downloaded_bytes + n }

/-- State carried through the streaming loop (lines 133-163):
`downloaded_size`, the `DownloadState`, the `BufWriter`'s buffer, the
filesystem, the trace of events so far, and for each processed chunk a
record `(chunk length, buffer level after the write, buffer level after
the threshold check)`. -/
structure LoopSt where
  downloaded_size : Nat
  dstate : DownloadState
  buffer : Bytes
  fs : Fs
  trace : List Event
  records : List (Nat × Nat × Nat)
deriving Repr

/-- `flush_buf` of the `BufWriter`: write the buffered bytes through to the
file (no write happens when the buffer is empty) and clear the buffer.
Both the explicit `writer.flush()` calls and the internal pre-flush of
`write_all` reduce to this. -/
def flushBuf (temp : Path) (s : LoopSt) : LoopSt :=
  if s.buffer.isEmpty then s
  else
    { s with
      buffer := []
      fs := fsAppend s.fs temp s.buffer
      trace := s.trace ++ [Event.writeFile temp s.buffer] }

/-- Second half of `BufWriter::poll_write`: a chunk at least as large as
the capacity is written through directly, otherwise it is appended to the
buffer. -/
def writeThrough (temp : Path) (s1 : LoopSt) (data : Bytes) : LoopSt :=
  if bufCapacity ≤ data.length then
    { s1 with
      fs := fsAppend s1.fs temp data
      trace := s1.trace ++ [Event.writeFile temp data] }
  else
    { s1 with buffer := s1.buffer ++ data }

/-- `writer.write_all(&chunk)` against a `tokio::io::BufWriter` of capacity
`bufCapacity`: if the chunk does not fit next to the buffered bytes the
buffer is flushed first, then the chunk is written through or buffered. -/
def bufWrite (temp : Path) (s : LoopSt) (data : Bytes) : LoopSt :=
  writeThrough temp
    (if bufCapacity < s.buffer.length + data.length then flushBuf temp s else s) data

/-- Lines 145-149 of the loop body: `downloaded_size += chunk.len()`, then
`state.update_progress(chunk.len(), &progress_bar)`, which reports the new
position. -/
def progressStep (s : LoopSt) (data : Bytes) : LoopSt :=
  { s with
    downloaded_size := s.downloaded_size + data.length
    dstate := s.dstate.update_progress data.length
    trace := s.trace ++ [Event.setPosition (s.dstate.update_progress data.length).downloaded_bytes] }

/-- Append the observation record of one loop iteration: the chunk length,
the buffer level right after the write, and the buffer level after the
threshold check. -/
def addRecord (s : LoopSt) (clen lvl : Nat) : LoopSt :=
  { s with records := s.records ++ [(clen, lvl, s.buffer.length)] }

/-- The `while let Some(chunk) = ...` loop (lines 133-163).  A timeout of
the chunk read is transient (line 135); a stream error is classified by
`is_retry_error` (lines 137-143); a chunk updates `downloaded_size`, the
`DownloadState` and the progress position (lines 145-149), is written
through the `BufWriter` (write failure is permanent, lines 151-154), and
the buffer is flushed once it holds at least `flushThreshold` bytes (flush
failure is permanent, lines 157-162). -/
def runLoop (writeFails flushFails : Bool) (temp : Path) :
    List ChunkEvent → LoopSt → LoopSt × Option Classified
  | [], s => (s, none)
  | ChunkEvent.timeout :: _, s => (s, some (Classified.transient Err.timeoutErr))
  | ChunkEvent.streamErr r :: _, s =>
      if is_retry_error r then (s, some (Classified.transient (Err.streamErr r)))
      else (s, some (Classified.permanent (Err.streamErr r)))
  | ChunkEvent.chunk data :: rest, s =>
      if writeFails then (progressStep s data, some (Classified.permanent Err.writeErr))
      else
        if flushThreshold ≤ (bufWrite temp (progressStep s data) data).buffer.length then
          if flushFails then
            (bufWrite temp (progressStep s data) data, some (Classified.permanent Err.flushErr))
          else
            runLoop writeFails flushFails temp rest
              (addRecord (flushBuf temp (bufWrite temp (progressStep s data) data))
                data.length (bufWrite temp (progressStep s data) data).buffer.length)
        else
          runLoop writeFails flushFails temp rest
            (addRecord (bufWrite temp (progressStep s data) data)
              data.length (bufWrite temp (progressStep s data) data).buffer.length)

/-- Everything one attempt produces: the classified result, the filesystem
after the attempt, the event trace, and direct observations of the values
the attempt computed (the probed length, the request offset, the
truncate/append mode of the open, `total_size`, the per-chunk buffer
records, the final `DownloadState` counter and the final buffer content). -/
structure AttemptOut where
  result : Except Classified Unit
  fs : Fs
  trace : List Event
  probedLen : Nat
  reqOffset : Nat
  openMode : Option (Bool × Bool)
  totalSize : Option Nat
  records : List (Nat × Nat × Nat)
  finalPos : Option Nat
  finalBuffer : Option Bytes
deriving Repr

/-- One execution of the retry closure of `inner_download`
(lines 76-179), against the environment of that attempt. -/
def inner_download_attempt (env : Env) (url : String) (path : Path) (fs : Fs) : AttemptOut :=
  let temp_file := tempFilePath path
  let downloaded_size := fsLen fs temp_file
  let baseTrace := [Event.request downloaded_size]
  match env.send with
  | SendOutcome.err isRetry =>
      { result :=
          Except.error
            (if is_retry_error isRetry then Classified.transient (Err.sendErr isRetry)
             else Classified.permanent (Err.sendErr isRetry))
        fs := fs, trace := baseTrace, probedLen := downloaded_size, reqOffset := downloaded_size
        openMode := none, totalSize := none, records := [], finalPos := none, finalBuffer := none }
  | SendOutcome.ok status contentLength chunkEvents =>
      if isSuccessStatus status = false then
        { result := Except.error (Classified.transient (Err.httpStatus status))
          fs := fs, trace := baseTrace, probedLen := downloaded_size, reqOffset := downloaded_size
          openMode := none, totalSize := none, records := [], finalPos := none, finalBuffer := none }
      else
        let supports_resume := status == 206
        let remaining_size := contentLength.getD 0
        let total_size := remaining_size + downloaded_size
        let dstate0 := DownloadState.new url downloaded_size total_size
        let truncateFlag := !supports_resume || downloaded_size == 0
        let appendFlag := supports_resume && decide (0 < downloaded_size)
        if env.openFails then
          { result := Except.error (Classified.permanent Err.openErr)
            fs := fs, trace := baseTrace, probedLen := downloaded_size, reqOffset := downloaded_size
            openMode := some (truncateFlag, appendFlag), totalSize := some total_size
            records := [], finalPos := none, finalBuffer := none }
        else
          let fs1 :=
            if truncateFlag then fsSet fs temp_file []
            else fsSet fs temp_file ((fsGet fs temp_file).getD [])
          let trace1 := baseTrace ++
            [Event.openFile temp_file truncateFlag appendFlag,
             Event.setLength total_size, Event.setPosition downloaded_size]
          let out := runLoop env.writeFails env.flushFails temp_file chunkEvents
            ⟨downloaded_size, dstate0, [], fs1, trace1, []⟩
          match out with
          | (sEnd, some e) =>
              { result := Except.error e
                fs := sEnd.fs, trace := sEnd.trace
                probedLen := downloaded_size, reqOffset := downloaded_size
                openMode := some (truncateFlag, appendFlag), totalSize := some total_size
                records := sEnd.records, finalPos := some sEnd.dstate.downloaded_bytes
                finalBuffer := none }
          | (sEnd, none) =>
              if env.flushFails then
                { result := Except.error (Classified.permanent Err.flushErr)
                  fs := sEnd.fs, trace := sEnd.trace
                  probedLen := downloaded_size, reqOffset := downloaded_size
                  openMode := some (truncateFlag, appendFlag), totalSize := some total_size
                  records := sEnd.records, finalPos := some sEnd.dstate.downloaded_bytes
                  finalBuffer := none }
              else
                let s2 := flushBuf temp_file sEnd
                let trace2 := s2.trace ++ [Event.finishMessage]
                if env.renameFails then
                  { result := Except.error (Classified.permanent Err.renameErr)
                    fs := s2.fs, trace := trace2
                    probedLen := downloaded_size, reqOffset := downloaded_size
                    openMode := some (truncateFlag, appendFlag), totalSize := some total_size
                    records := s2.records, finalPos := some s2.dstate.downloaded_bytes
                    finalBuffer := some s2.buffer }
                else
                  { result := Except.ok ()
                    fs := fsSet (fsRemove s2.fs temp_file) path ((fsGet s2.fs temp_file).getD [])
                    trace := trace2 ++ [Event.renameFile temp_file path]
                    probedLen := downloaded_size, reqOffset := downloaded_size
                    openMode := some (truncateFlag, appendFlag), totalSize := some total_size
                    records := s2.records, finalPos := some s2.dstate.downloaded_bytes
                    finalBuffer := some s2.buffer }

/-- The outcome of one `backoff::future::retry`-wrapped `inner_download`
call: its result, the number of attempts performed, the final filesystem,
the concatenated event trace, and for each attempt the pair (on-disk temp
length at the start of the attempt, offset of the range request it sent). -/
structure RunOut where
  result : Except Err Unit
  attempts : Nat
  fs : Fs
  trace : List Event
  offsets : List (Nat × Nat)
deriving Repr

/-- Semantics of `backoff::future::retry(self.backoff(), || ...)`
(line 76) over an explicit list of per-attempt environments: a successful
attempt returns; a permanent error aborts immediately; a transient error
sleeps and retries, and when the elapsed-time budget is exhausted (modelled
by the end of the environment list) the last transient error is returned. -/
def retryRun (url : String) (path : Path) : List Env → Fs → RunOut
  | [], fs => ⟨Except.error Err.retriesExhausted, 0, fs, [], []⟩
  | env :: rest, fs =>
      let a := inner_download_attempt env url path fs
      let rec0 := (fsLen fs (tempFilePath path), a.reqOffset)
      match a.result with
      | Except.ok _ => ⟨Except.ok (), 1, a.fs, a.trace, [rec0]⟩
      | Except.error (Classified.permanent e) => ⟨Except.error e, 1, a.fs, a.trace, [rec0]⟩
      | Except.error (Classified.transient e) =>
          if rest.isEmpty then ⟨Except.error e, 1, a.fs, a.trace, [rec0]⟩
          else
            let r := retryRun url path rest a.fs
            ⟨r.result, 1 + r.attempts, r.fs, a.trace ++ r.trace, rec0 :: r.offsets⟩

/-- Coarse phase of one `inner_download` task as scheduled by `download`:
not yet streaming, streaming, or finished. -/
inductive TaskPhase where
  | pending
  | streaming
  | done
deriving DecidableEq, Repr

/-- Interleaving semantics of `download` (lines 45-56): the method builds
one `inner_download` future per task and runs them all with
`futures::future::try_join_all`.  There is no semaphore, permit pool or
other gating anywhere in the crate, so the async scheduler may advance any
task at any time: a pending task may enter its streaming phase regardless
of how many tasks already stream, and a streaming task may finish. -/
inductive DownloadStep : List TaskPhase → List TaskPhase → Prop
  | start (ts : List TaskPhase) (i : Nat) (h : ts.get? i = some TaskPhase.pending) :
      DownloadStep ts (ts.set i TaskPhase.streaming)
  | finish (ts : List TaskPhase) (i : Nat) (h : ts.get? i = some TaskPhase.streaming) :
      DownloadStep ts (ts.set i TaskPhase.done)

/-- States reachable by the scheduler from a given task configuration. -/
def downloadReachable : List TaskPhase → List TaskPhase → Prop :=
  Relation.ReflTransGen DownloadStep

/-- Initial configuration of `download` for M tasks: none has started. -/
def downloadInit (m : Nat) : List TaskPhase := List.replicate m TaskPhase.pending

/-- Number of tasks currently in the streaming phase. -/
def streamingCount (ts : List TaskPhase) : Nat :=
  ts.countP (fun t => decide (t = TaskPhase.streaming))

/-- The property of one per-chunk record claimed by the flush-bound
invariant: the buffer level right after the write exceeds the flush
threshold by at most the chunk's length, the threshold check empties the
buffer whenever the level reached the threshold, and the level after the
check is below the threshold. -/
def recordOk (r : Nat × Nat × Nat) : Prop :=
  r.2.1 ≤ flushThreshold + r.1 ∧ (flushThreshold ≤ r.2.1 → r.2.2 = 0) ∧ r.2.2 < flushThreshold

/-- Total byte length of a list of chunks. -/
def totalLen (ds : List Bytes) : Nat := (ds.map List.length).sum

/-- The error sites the spec calls Fatal-local: the four filesystem
operations of an attempt. -/
def fsErr (e : Err) : Prop :=
  e = Err.openErr ∨ e = Err.writeErr ∨ e = Err.flushErr ∨ e = Err.renameErr

/-- Sample url for concrete witnesses. -/
def sampleUrl : String := "http:u"

/-- A relative single-component destination path. -/
def destRel : Path := ⟨false, ["f.bin"]⟩

/-- A relative destination path with a directory component. -/
def destDir : Path := ⟨false, ["a", "b.bin"]⟩

/-- An absolute destination path. -/
def destAbs : Path := ⟨true, ["opt", "f.bin"]⟩

/-- A fault-free environment: a 200 response of three bytes. -/
def envOk : Env := ⟨SendOutcome.ok 200 (some 3) [ChunkEvent.chunk [1, 2, 3]], false, false, false, false⟩

/-- A fault-free environment: a 206 response appending two bytes. -/
def env206 : Env := ⟨SendOutcome.ok 206 (some 2) [ChunkEvent.chunk [4, 5]], false, false, false, false⟩

/-- An environment whose response status is 404. -/
def env404 : Env := ⟨SendOutcome.ok 404 none [], false, false, false, false⟩

/-- An environment in which opening the temp file fails. -/
def envOpenFail : Env := ⟨SendOutcome.ok 200 (some 3) [ChunkEvent.chunk [1, 2, 3]], true, false, false, false⟩

/-! ### Basic filesystem and path lemmas -/

theorem fsGet_fsSet_self (fs : Fs) (p : Path) (b : Bytes) :
    fsGet (fsSet fs p b) p = some b := by
  induction fs with
  | nil => simp [fsSet, fsGet]
  | cons e rest ih =>
      by_cases h : e.1 = p
      · simp [fsSet, fsGet, h]
      · simp [fsSet, fsGet, h, ih]

theorem fsGet_fsSet_ne (fs : Fs) (p q : Path) (b : Bytes) (h : p ≠ q) :
    fsGet (fsSet fs p b) q = fsGet fs q := by
  induction fs with
  | nil => simp [fsSet, fsGet, h]
  | cons e rest ih =>
      by_cases he : e.1 = p
      · simp [fsSet, fsGet, he, h]
      · simp [fsSet, fsGet, he, ih]

theorem fsGet_fsRemove_ne (fs : Fs) (p q : Path) (h : p ≠ q) :
    fsGet (fsRemove fs p) q = fsGet fs q := by
  induction fs with
  | nil => simp [fsRemove]
  | cons e rest ih =>
      by_cases he : e.1 = p
      · have : e.1 ≠ q := by rw [he]; exact h
        simp [fsRemove, fsGet, he, this, ih, h]
      · simp [fsRemove, fsGet, he, ih]

theorem tempFilePath_absolute_of_rel (path : Path) (h : path.absolute = false) :
    (tempFilePath path).absolute = true := by
  simp [tempFilePath, Path.join, tempDir, h]

theorem tempFilePath_ne (path : Path) (h : path.absolute = false) :
    tempFilePath path ≠ path := by
  intro he
  have := tempFilePath_absolute_of_rel path h
  rw [he, h] at this
  exact Bool.false_ne_true this

/-! ### Writer lemmas -/

theorem flushBuf_buffer (temp : Path) (s : LoopSt) : (flushBuf temp s).buffer = [] := by
  unfold flushBuf
  split
  · next h => exact List.isEmpty_iff.mp h
  · rfl

theorem flushBuf_dstate (temp : Path) (s : LoopSt) : (flushBuf temp s).dstate = s.dstate := by
  unfold flushBuf; split <;> rfl

theorem flushBuf_downloaded (temp : Path) (s : LoopSt) :
    (flushBuf temp s).downloaded_size = s.downloaded_size := by
  unfold flushBuf; split <;> rfl

theorem flushBuf_records (temp : Path) (s : LoopSt) : (flushBuf temp s).records = s.records := by
  unfold flushBuf; split <;> rfl

theorem flushBuf_fs_ne (temp : Path) (s : LoopSt) (q : Path) (h : temp ≠ q) :
    fsGet (flushBuf temp s).fs q = fsGet s.fs q := by
  unfold flushBuf
  split
  · rfl
  · exact fsGet_fsSet_ne _ _ _ _ h

theorem flushBuf_content (temp : Path) (s : LoopSt) :
    (fsGet (flushBuf temp s).fs temp).getD [] = (fsGet s.fs temp).getD [] ++ s.buffer := by
  unfold flushBuf
  split
  · next h => simp [List.isEmpty_iff.mp h]
  · simp [fsAppend, fsGet_fsSet_self]

theorem flushBuf_trace (temp : Path) (s : LoopSt) :
    ∀ e ∈ (flushBuf temp s).trace, e ∈ s.trace ∨ ∃ d, e = Event.writeFile temp d := by
  intro e he
  unfold flushBuf at he
  split at he
  · exact Or.inl he
  · simp only [List.mem_append, List.mem_singleton] at he
    rcases he with h | h
    · exact Or.inl h
    · exact Or.inr ⟨s.buffer, h⟩

theorem writeThrough_buffer_le (temp : Path) (s1 : LoopSt) (data : Bytes) :
    (writeThrough temp s1 data).buffer.length ≤ s1.buffer.length + data.length := by
  unfold writeThrough
  split
  · exact Nat.le_add_right _ _
  · simp

theorem writeThrough_dstate (temp : Path) (s1 : LoopSt) (data : Bytes) :
    (writeThrough temp s1 data).dstate = s1.dstate := by
  unfold writeThrough; split <;> rfl

theorem writeThrough_downloaded (temp : Path) (s1 : LoopSt) (data : Bytes) :
    (writeThrough temp s1 data).downloaded_size = s1.downloaded_size := by
  unfold writeThrough; split <;> rfl

theorem writeThrough_records (temp : Path) (s1 : LoopSt) (data : Bytes) :
    (writeThrough temp s1 data).records = s1.records := by
  unfold writeThrough; split <;> rfl

theorem writeThrough_fs_ne (temp : Path) (s1 : LoopSt) (data : Bytes) (q : Path)
    (h : temp ≠ q) : fsGet (writeThrough temp s1 data).fs q = fsGet s1.fs q := by
  unfold writeThrough
  split
  · simp only [fsAppend]
    exact fsGet_fsSet_ne _ _ _ _ h
  · rfl

theorem writeThrough_trace (temp : Path) (s1 : LoopSt) (data : Bytes) :
    ∀ e ∈ (writeThrough temp s1 data).trace,
      e ∈ s1.trace ∨ ∃ d, e = Event.writeFile temp d := by
  intro e he
  unfold writeThrough at he
  split at he
  · simp only [List.mem_append, List.mem_singleton] at he
    rcases he with h | h
    · exact Or.inl h
    · exact Or.inr ⟨data, h⟩
  · exact Or.inl he

theorem bufWrite_buffer_le (temp : Path) (s : LoopSt) (data : Bytes) :
    (bufWrite temp s data).buffer.length ≤ s.buffer.length + data.length := by
  unfold bufWrite
  refine Nat.le_trans (writeThrough_buffer_le _ _ _) ?_
  apply Nat.add_le_add_right
  split
  · rw [flushBuf_buffer]; exact Nat.zero_le _
  · exact Nat.le_refl _

theorem bufWrite_dstate (temp : Path) (s : LoopSt) (data : Bytes) :
    (bufWrite temp s data).dstate = s.dstate := by
  unfold bufWrite
  rw [writeThrough_dstate]
  split
  · rw [flushBuf_dstate]
  · rfl

theorem bufWrite_downloaded (temp : Path) (s : LoopSt) (data : Bytes) :
    (bufWrite temp s data).downloaded_size = s.downloaded_size := by
  unfold bufWrite
  rw [writeThrough_downloaded]
  split
  · rw [flushBuf_downloaded]
  · rfl

theorem bufWrite_records (temp : Path) (s : LoopSt) (data : Bytes) :
    (bufWrite temp s data).records = s.records := by
  unfold bufWrite
  rw [writeThrough_records]
  split
  · rw [flushBuf_records]
  · rfl

theorem bufWrite_fs_ne (temp : Path) (s : LoopSt) (data : Bytes) (q : Path) (h : temp ≠ q) :
    fsGet (bufWrite temp s data).fs q = fsGet s.fs q := by
  unfold bufWrite
  rw [writeThrough_fs_ne _ _ _ _ h]
  split
  · rw [flushBuf_fs_ne _ _ _ h]
  · rfl

theorem writeThrough_content (temp : Path) (s1 : LoopSt) (data : Bytes)
    (hb : bufCapacity ≤ data.length → s1.buffer = []) :
    (fsGet (writeThrough temp s1 data).fs temp).getD [] ++ (writeThrough temp s1 data).buffer =
      (fsGet s1.fs temp).getD [] ++ s1.buffer ++ data := by
  unfold writeThrough
  split
  · next hbig =>
    simp [fsAppend, fsGet_fsSet_self, hb hbig]
  · simp

theorem bufWrite_content (temp : Path) (s : LoopSt) (data : Bytes) :
    (fsGet (bufWrite temp s data).fs temp).getD [] ++ (bufWrite temp s data).buffer =
      (fsGet s.fs temp).getD [] ++ s.buffer ++ data := by
  unfold bufWrite
  split
  · next hcap =>
    rw [writeThrough_content temp _ data (fun _ => flushBuf_buffer temp s),
      flushBuf_content, flushBuf_buffer]
    simp
  · next hcap =>
    by_cases hbig : bufCapacity ≤ data.length
    · have hzero : s.buffer.length = 0 := by
        simp only [Nat.not_lt] at hcap
        omega
      have hnil : s.buffer = [] := List.length_eq_zero.mp hzero
      rw [writeThrough_content temp s data (fun _ => hnil), hnil]
    · unfold writeThrough
      rw [if_neg hbig]
      simp

theorem bufWrite_trace (temp : Path) (s : LoopSt) (data : Bytes) :
    ∀ e ∈ (bufWrite temp s data).trace, e ∈ s.trace ∨ ∃ d, e = Event.writeFile temp d := by
  intro e he
  unfold bufWrite at he
  rcases writeThrough_trace _ _ _ e he with h | h
  · split at h
    · exact flushBuf_trace temp s e h
    · exact Or.inl h
  · exact Or.inr h

theorem progressStep_fs (s : LoopSt) (d : Bytes) : (progressStep s d).fs = s.fs := rfl

theorem progressStep_buffer (s : LoopSt) (d : Bytes) : (progressStep s d).buffer = s.buffer := rfl

theorem progressStep_records (s : LoopSt) (d : Bytes) :
    (progressStep s d).records = s.records := rfl

theorem progressStep_downloaded (s : LoopSt) (d : Bytes) :
    (progressStep s d).downloaded_size = s.downloaded_size + d.length := rfl

theorem progressStep_dstate (s : LoopSt) (d : Bytes) :
    (progressStep s d).dstate = s.dstate.update_progress d.length := rfl

theorem addRecord_fs (s : LoopSt) (c l : Nat) : (addRecord s c l).fs = s.fs := rfl

theorem addRecord_buffer (s : LoopSt) (c l : Nat) : (addRecord s c l).buffer = s.buffer := rfl

theorem addRecord_dstate (s : LoopSt) (c l : Nat) : (addRecord s c l).dstate = s.dstate := rfl

theorem addRecord_downloaded (s : LoopSt) (c l : Nat) :
    (addRecord s c l).downloaded_size = s.downloaded_size := rfl

theorem addRecord_records (s : LoopSt) (c l : Nat) :
    (addRecord s c l).records = s.records ++ [(c, l, s.buffer.length)] := rfl

theorem flushBuf_pair (temp : Path) (s : LoopSt) :
    (fsGet (flushBuf temp s).fs temp).getD [] ++ (flushBuf temp s).buffer =
      (fsGet s.fs temp).getD [] ++ s.buffer := by
  rw [flushBuf_content, flushBuf_buffer, List.append_nil]

/-! ### Loop lemmas -/

/-- Transient errors of the streaming loop are exactly the chunk-read
timeouts and the retryable stream errors. -/
theorem runLoop_transient_shape (w f : Bool) (temp : Path) (evs : List ChunkEvent) :
    ∀ (s : LoopSt) (e : Err),
      (runLoop w f temp evs s).2 = some (Classified.transient e) →
      e = Err.timeoutErr ∨ ∃ b, e = Err.streamErr b := by
  induction evs with
  | nil => intro s e h; simp [runLoop] at h
  | cons ev rest ih =>
      intro s e h
      cases ev with
      | timeout =>
          simp only [runLoop, Option.some_inj] at h
          exact Or.inl (Classified.transient.inj h.symm ▸ rfl)
      | streamErr r =>
          simp only [runLoop] at h
          split at h
          · simp only [Option.some_inj] at h
            exact Or.inr ⟨r, (Classified.transient.inj h).symm⟩
          · simp at h
      | chunk data =>
          simp only [runLoop] at h
          split at h
          · simp at h
          · split at h
            · split at h
              · simp at h
              · exact ih _ _ h
            · exact ih _ _ h

/-- The loop never touches any path besides the temp file. -/
theorem runLoop_fs_ne (w f : Bool) (temp : Path) (evs : List ChunkEvent) :
    ∀ (s : LoopSt) (q : Path), temp ≠ q →
      fsGet (runLoop w f temp evs s).1.fs q = fsGet s.fs q := by
  induction evs with
  | nil => intro s q _; rfl
  | cons ev rest ih =>
      intro s q hq
      cases ev with
      | timeout => rfl
      | streamErr r =>
          simp only [runLoop]
          split <;> rfl
      | chunk data =>
          simp only [runLoop]
          split
          · rfl
          · split
            · split
              · exact bufWrite_fs_ne _ _ _ _ hq
              · rw [ih _ _ hq, addRecord_fs, flushBuf_fs_ne _ _ _ hq,
                  bufWrite_fs_ne _ _ _ _ hq, progressStep_fs]
            · rw [ih _ _ hq, addRecord_fs, bufWrite_fs_ne _ _ _ _ hq, progressStep_fs]

/-- Every event the loop appends is a progress-position update or a write
to the temp file. -/
theorem runLoop_trace (w f : Bool) (temp : Path) (evs : List ChunkEvent) :
    ∀ (s : LoopSt), ∀ e ∈ (runLoop w f temp evs s).1.trace,
      e ∈ s.trace ∨ (∃ n, e = Event.setPosition n) ∨ ∃ d, e = Event.writeFile temp d := by
  induction evs with
  | nil => intro s e he; exact Or.inl he
  | cons ev rest ih =>
      intro s e he
      have hstep : ∀ (d : Bytes), e ∈ (bufWrite temp (progressStep s d) d).trace →
          e ∈ s.trace ∨ (∃ n, e = Event.setPosition n) ∨ ∃ d, e = Event.writeFile temp d := by
        intro d hd
        rcases bufWrite_trace _ _ _ e hd with h | h
        · unfold progressStep at h
          simp only [List.mem_append, List.mem_singleton] at h
          rcases h with h | h
          · exact Or.inl h
          · exact Or.inr (Or.inl ⟨_, h⟩)
        · exact Or.inr (Or.inr h)
      cases ev with
      | timeout => exact Or.inl he
      | streamErr r =>
          simp only [runLoop] at he
          split at he <;> exact Or.inl he
      | chunk data =>
          simp only [runLoop] at he
          split at he
          · unfold progressStep at he
            simp only [List.mem_append, List.mem_singleton] at he
            rcases he with h | h
            · exact Or.inl h
            · exact Or.inr (Or.inl ⟨_, h⟩)
          · split at he
            · split at he
              · exact hstep data he
              · rcases ih _ e he with h | h
                · simp only [addRecord] at h
                  rcases flushBuf_trace _ _ e h with h2 | h2
                  · exact hstep data h2
                  · exact Or.inr (Or.inr h2)
                · exact Or.inr h
            · rcases ih _ e he with h | h
              · simp only [addRecord] at h
                exact hstep data h
              · exact Or.inr h

/-- Flush-bound invariant of the streaming loop: starting below the
threshold, every record produced is in bounds and the buffer stays below
the threshold at every iteration boundary. -/
theorem runLoop_records (w f : Bool) (temp : Path) (evs : List ChunkEvent) :
    ∀ (s : LoopSt), s.buffer.length < flushThreshold →
      (∀ r ∈ s.records, recordOk r) →
      ∀ r ∈ (runLoop w f temp evs s).1.records, recordOk r := by
  induction evs with
  | nil => intro s _ hrec r hr; exact hrec r hr
  | cons ev rest ih =>
      intro s hbuf hrec r hr
      cases ev with
      | timeout => exact hrec r hr
      | streamErr rr =>
          simp only [runLoop] at hr
          split at hr <;> exact hrec r hr
      | chunk data =>
          have hAW : (bufWrite temp (progressStep s data) data).buffer.length ≤
              s.buffer.length + data.length := by
            have := bufWrite_buffer_le temp (progressStep s data) data
            rwa [progressStep_buffer] at this
          simp only [runLoop] at hr
          split at hr
          · simpa only [progressStep_records] using hrec r hr
          · split at hr
            · next hth =>
              split at hr
              · have hr2 : r ∈ (bufWrite temp (progressStep s data) data).records := hr
                rw [bufWrite_records, progressStep_records] at hr2
                exact hrec r hr2
              · refine ih _ ?_ ?_ r hr
                · simp only [addRecord_buffer, flushBuf_buffer, List.length_nil]
                  norm_num [flushThreshold]
                · intro r2 hr2
                  simp only [addRecord_records, flushBuf_records, bufWrite_records,
                    progressStep_records, flushBuf_buffer, List.mem_append,
                    List.mem_singleton, List.length_nil] at hr2
                  rcases hr2 with h2 | h2
                  · exact hrec r2 h2
                  · subst h2
                    unfold recordOk
                    dsimp only
                    refine ⟨by omega, fun _ => rfl, by norm_num [flushThreshold]⟩
            · next hth =>
              refine ih _ ?_ ?_ r hr
              · simpa only [addRecord_buffer] using Nat.lt_of_not_le hth
              · intro r2 hr2
                simp only [addRecord_records, bufWrite_records, progressStep_records,
                  List.mem_append, List.mem_singleton] at hr2
                rcases hr2 with h2 | h2
                · exact hrec r2 h2
                · subst h2
                  unfold recordOk
                  dsimp only
                  exact ⟨by omega, fun hc => absurd hc hth, Nat.lt_of_not_le hth⟩

theorem update_progress_downloaded (s : DownloadState) (n : Nat) :
    (s.update_progress n).downloaded_bytes = s.downloaded_bytes + n := rfl

theorem update_progress_total (s : DownloadState) (n : Nat) :
    (s.update_progress n).total_bytes = s.total_bytes := rfl

theorem totalLen_cons (d : Bytes) (rest : List Bytes) :
    totalLen (d :: rest) = d.length + totalLen rest := by
  simp [totalLen]

/-- On a fault-free stream of plain chunks, the loop succeeds; the counter
and the reported position both advance by the total chunk length, the total
stays fixed, and the file content plus the remaining buffer equal the prior
content plus all streamed bytes. -/
theorem runLoop_chunks (temp : Path) (ds : List Bytes) :
    ∀ s : LoopSt,
      (runLoop false false temp (ds.map ChunkEvent.chunk) s).2 = none ∧
      (runLoop false false temp (ds.map ChunkEvent.chunk) s).1.downloaded_size =
        s.downloaded_size + totalLen ds ∧
      (runLoop false false temp (ds.map ChunkEvent.chunk) s).1.dstate.downloaded_bytes =
        s.dstate.downloaded_bytes + totalLen ds ∧
      (runLoop false false temp (ds.map ChunkEvent.chunk) s).1.dstate.total_bytes =
        s.dstate.total_bytes ∧
      (fsGet (runLoop false false temp (ds.map ChunkEvent.chunk) s).1.fs temp).getD [] ++
          (runLoop false false temp (ds.map ChunkEvent.chunk) s).1.buffer =
        (fsGet s.fs temp).getD [] ++ s.buffer ++ ds.flatten := by
  induction ds with
  | nil =>
      intro s
      simp [runLoop, totalLen]
  | cons d rest ih =>
      intro s
      have hne : ¬(false = true) := Bool.false_ne_true
      simp only [List.map_cons, runLoop, if_neg hne, totalLen_cons, List.flatten_cons]
      split
      · next hth =>
        obtain ⟨h1, h2, h3, h4, h5⟩ :=
          ih (addRecord (flushBuf temp (bufWrite temp (progressStep s d) d))
            d.length (bufWrite temp (progressStep s d) d).buffer.length)
        refine ⟨h1, ?_, ?_, ?_, ?_⟩
        · rw [h2, addRecord_downloaded, flushBuf_downloaded, bufWrite_downloaded,
            progressStep_downloaded]
          omega
        · rw [h3, addRecord_dstate, flushBuf_dstate, bufWrite_dstate, progressStep_dstate,
            update_progress_downloaded]
          omega
        · rw [h4, addRecord_dstate, flushBuf_dstate, bufWrite_dstate, progressStep_dstate,
            update_progress_total]
        · rw [h5]
          have hpair : (fsGet (addRecord (flushBuf temp (bufWrite temp (progressStep s d) d))
              d.length (bufWrite temp (progressStep s d) d).buffer.length).fs temp).getD [] ++
              (addRecord (flushBuf temp (bufWrite temp (progressStep s d) d))
                d.length (bufWrite temp (progressStep s d) d).buffer.length).buffer =
              (fsGet s.fs temp).getD [] ++ s.buffer ++ d := by
            rw [addRecord_fs, addRecord_buffer, flushBuf_pair, bufWrite_content,
              progressStep_fs, progressStep_buffer]
          rw [hpair, List.append_assoc]
      · next hth =>
        obtain ⟨h1, h2, h3, h4, h5⟩ :=
          ih (addRecord (bufWrite temp (progressStep s d) d)
            d.length (bufWrite temp (progressStep s d) d).buffer.length)
        refine ⟨h1, ?_, ?_, ?_, ?_⟩
        · rw [h2, addRecord_downloaded, bufWrite_downloaded, progressStep_downloaded]
          omega
        · rw [h3, addRecord_dstate, bufWrite_dstate, progressStep_dstate,
            update_progress_downloaded]
          omega
        · rw [h4, addRecord_dstate, bufWrite_dstate, progressStep_dstate, update_progress_total]
        · rw [h5]
          have hpair : (fsGet (addRecord (bufWrite temp (progressStep s d) d)
              d.length (bufWrite temp (progressStep s d) d).buffer.length).fs temp).getD [] ++
              (addRecord (bufWrite temp (progressStep s d) d)
                d.length (bufWrite temp (progressStep s d) d).buffer.length).buffer =
              (fsGet s.fs temp).getD [] ++ s.buffer ++ d := by
            rw [addRecord_fs, addRecord_buffer, bufWrite_content,
              progressStep_fs, progressStep_buffer]
          rw [hpair, List.append_assoc]

/-! ### Attempt lemmas -/

/-- Every attempt sends its range request at exactly the probed on-disk
length of the temp file. -/
theorem attempt_reqOffset (env : Env) (url : String) (path : Path) (fs : Fs) :
    (inner_download_attempt env url path fs).reqOffset = fsLen fs (tempFilePath path) := by
  unfold inner_download_attempt
  cases h : env.send with
  | err b => rfl
  | ok s cl evs =>
      dsimp only
      repeat' split
      all_goals rfl

/-- The probed length recorded by an attempt is the on-disk length. -/
theorem attempt_probedLen (env : Env) (url : String) (path : Path) (fs : Fs) :
    (inner_download_attempt env url path fs).probedLen = fsLen fs (tempFilePath path) := by
  unfold inner_download_attempt
  cases h : env.send with
  | err b => rfl
  | ok s cl evs =>
      dsimp only
      repeat' split
      all_goals rfl

/-- A non-success HTTP status makes the attempt fail with a transient
`httpStatus` error, and leaves the filesystem untouched. -/
theorem attempt_nonsuccess (env : Env) (url : String) (path : Path) (fs : Fs)
    (s : Nat) (cl : Option Nat) (evs : List ChunkEvent)
    (hsend : env.send = SendOutcome.ok s cl evs) (hs : isSuccessStatus s = false) :
    (inner_download_attempt env url path fs).result =
      Except.error (Classified.transient (Err.httpStatus s)) ∧
    (inner_download_attempt env url path fs).fs = fs := by
  unfold inner_download_attempt
  rw [hsend]
  dsimp only
  rw [if_pos hs]
  exact ⟨rfl, rfl⟩

/-- The transient errors an attempt can produce are exactly the send
errors, the HTTP-status failures, the chunk-read timeouts and the
retryable stream errors — never a filesystem failure. -/
theorem attempt_transient_shape (env : Env) (url : String) (path : Path) (fs : Fs) (e : Err)
    (h : (inner_download_attempt env url path fs).result =
      Except.error (Classified.transient e)) :
    e = Err.timeoutErr ∨ (∃ b, e = Err.sendErr b) ∨
      (∃ n, e = Err.httpStatus n) ∨ ∃ b, e = Err.streamErr b := by
  unfold inner_download_attempt at h
  cases hsend : env.send with
  | err b =>
      rw [hsend] at h
      dsimp only at h
      split at h
      · simp only [Except.error.injEq] at h
        exact Or.inr (Or.inl ⟨b, (Classified.transient.inj h).symm⟩)
      · simp at h
  | ok s cl evs =>
      rw [hsend] at h
      dsimp only at h
      split at h
      · simp only [Except.error.injEq] at h
        exact Or.inr (Or.inr (Or.inl ⟨s, (Classified.transient.inj h).symm⟩))
      · split at h
        · simp at h
        · split at h
          · next sEnd e2 heq =>
            simp only [Except.error.injEq] at h
            subst h
            have h2 := congrArg Prod.snd heq
            dsimp only at h2
            rcases runLoop_transient_shape _ _ _ _ _ _ h2 with h3 | h3
            · exact Or.inl h3
            · exact Or.inr (Or.inr (Or.inr h3))
          · split at h
            · simp at h
            · split at h
              · simp at h
              · simp at h

/-- A failed attempt leaves every path other than the temp file exactly as
it was. -/
theorem attempt_fs_preserve (env : Env) (url : String) (path : Path) (fs : Fs) (q : Path)
    (hq : tempFilePath path ≠ q)
    (h : (inner_download_attempt env url path fs).result ≠ Except.ok ()) :
    fsGet (inner_download_attempt env url path fs).fs q = fsGet fs q := by
  unfold inner_download_attempt at h ⊢
  cases hsend : env.send with
  | err b => rfl
  | ok s cl evs =>
      rw [hsend] at h
      dsimp only at h ⊢
      split
      · rfl
      · next hsucc =>
        split
        · rfl
        · next hopen =>
          split
          · next sEnd e2 heq =>
            have h1 := congrArg Prod.fst heq
            dsimp only at h1 ⊢
            rw [← h1, runLoop_fs_ne _ _ _ _ _ _ hq]
            dsimp only
            split
            · exact fsGet_fsSet_ne _ _ _ _ hq
            · exact fsGet_fsSet_ne _ _ _ _ hq
          · next sEnd heq =>
            have h1 := congrArg Prod.fst heq
            dsimp only at h1 ⊢
            split
            · rw [← h1, runLoop_fs_ne _ _ _ _ _ _ hq]
              dsimp only
              split
              · exact fsGet_fsSet_ne _ _ _ _ hq
              · exact fsGet_fsSet_ne _ _ _ _ hq
            · next hfl =>
              split
              · rw [flushBuf_fs_ne _ _ _ hq, ← h1, runLoop_fs_ne _ _ _ _ _ _ hq]
                dsimp only
                split
                · exact fsGet_fsSet_ne _ _ _ _ hq
                · exact fsGet_fsSet_ne _ _ _ _ hq
              · next hrn =>
                rw [if_neg hsucc, if_neg hopen, heq] at h
                dsimp only at h
                rw [if_neg hfl, if_neg hrn] at h
                exact absurd rfl h

/-- A successful attempt's trace ends with the terminal progress message
followed by the rename of the temp file onto the destination, and its final
buffer is empty (everything was flushed before the message). -/
theorem attempt_success_shape (env : Env) (url : String) (path : Path) (fs : Fs)
    (h : (inner_download_attempt env url path fs).result = Except.ok ()) :
    ∃ pre, (inner_download_attempt env url path fs).trace =
        pre ++ [Event.finishMessage, Event.renameFile (tempFilePath path) path] ∧
      (inner_download_attempt env url path fs).finalBuffer = some [] := by
  unfold inner_download_attempt at h ⊢
  cases hsend : env.send with
  | err b =>
      rw [hsend] at h
      dsimp only at h
      split at h <;> simp at h
  | ok s cl evs =>
      rw [hsend] at h
      dsimp only at h ⊢
      split at h
      · simp at h
      · next hsucc =>
        split at h
        · simp at h
        · next hopen =>
          split at h
          · simp at h
          · next sEnd heq =>
            split at h
            · simp at h
            · next hfl =>
              split at h
              · simp at h
              · next hrn =>
                rw [if_neg hsucc, if_neg hopen, if_neg hfl, if_neg hrn]
                exact ⟨(flushBuf (tempFilePath path) sEnd).trace, List.append_assoc _ _ _,
                  congrArg some (flushBuf_buffer _ _)⟩

/-- Any trace whose events all write only to the temp file keeps that
property through the streaming loop. -/
theorem runLoop_writes (w f : Bool) (temp : Path) (evs : List ChunkEvent) (s0 : LoopSt)
    (hbase : ∀ e ∈ s0.trace, ∀ q, Event.writesTo e = some q → q = temp) :
    ∀ e ∈ (runLoop w f temp evs s0).1.trace, ∀ q, Event.writesTo e = some q → q = temp := by
  intro e he q hq
  rcases runLoop_trace w f temp evs s0 e he with h | h | h
  · exact hbase e h q hq
  · rcases h with ⟨n, rfl⟩
    simp [Event.writesTo] at hq
  · rcases h with ⟨d, rfl⟩
    simp only [Event.writesTo, Option.some.injEq] at hq
    exact hq.symm

/-- Every event of an attempt that writes to some path either targets the
temp file or is the final rename of the temp file onto the destination. -/
theorem attempt_trace_writes (env : Env) (url : String) (path : Path) (fs : Fs) :
    ∀ e ∈ (inner_download_attempt env url path fs).trace, ∀ q,
      Event.writesTo e = some q →
      q = tempFilePath path ∨ e = Event.renameFile (tempFilePath path) path := by
  unfold inner_download_attempt
  cases hsend : env.send with
  | err b =>
      intro e he q hq
      dsimp only at he
      simp only [List.mem_singleton] at he
      subst he
      simp [Event.writesTo] at hq
  | ok s cl evs =>
      dsimp only
      have hbase : ∀ (d n m : Nat) (t a : Bool),
          ∀ e ∈ [Event.request d, Event.openFile (tempFilePath path) t a,
            Event.setLength n, Event.setPosition m], ∀ q,
            Event.writesTo e = some q → q = tempFilePath path := by
        intro d n m t a e he q hq
        simp only [List.mem_cons, List.not_mem_nil, or_false] at he
        rcases he with rfl | rfl | rfl | rfl
        · simp [Event.writesTo] at hq
        · simp only [Event.writesTo, Option.some.injEq] at hq
          exact hq.symm
        · simp [Event.writesTo] at hq
        · simp [Event.writesTo] at hq
      split
      · intro e he q hq
        simp only [List.mem_singleton] at he
        subst he
        simp [Event.writesTo] at hq
      · split
        · intro e he q hq
          simp only [List.mem_singleton] at he
          subst he
          simp [Event.writesTo] at hq
        · split
          · next sEnd e2 heq =>
            intro e he q hq
            have h1 := congrArg Prod.fst heq
            dsimp only at h1 he
            rw [← h1] at he
            exact Or.inl (runLoop_writes _ _ _ _ _ (hbase _ _ _ _ _) e he q hq)
          · next sEnd heq =>
            have h1 := congrArg Prod.fst heq
            dsimp only at h1
            have hloop : ∀ e ∈ sEnd.trace, ∀ q,
                Event.writesTo e = some q → q = tempFilePath path := by
              rw [← h1]
              exact runLoop_writes _ _ _ _ _ (hbase _ _ _ _ _)
            have hflush : ∀ e ∈ (flushBuf (tempFilePath path) sEnd).trace, ∀ q,
                Event.writesTo e = some q → q = tempFilePath path := by
              intro e he q hq
              rcases flushBuf_trace _ _ e he with h2 | h2
              · exact hloop e h2 q hq
              · rcases h2 with ⟨d, rfl⟩
                simp only [Event.writesTo, Option.some.injEq] at hq
                exact hq.symm
            split
            · intro e he q hq
              exact Or.inl (hloop e he q hq)
            · split
              · intro e he q hq
                dsimp only at he
                simp only [List.mem_append, List.mem_singleton] at he
                rcases he with h2 | h2
                · exact Or.inl (hflush e h2 q hq)
                · subst h2
                  simp [Event.writesTo] at hq
              · intro e he q hq
                dsimp only at he
                simp only [List.mem_append, List.mem_singleton] at he
                rcases he with (h2 | h2) | h2
                · exact Or.inl (hflush e h2 q hq)
                · subst h2
                  simp [Event.writesTo] at hq
                · subst h2
                  exact Or.inr rfl

/-- Boolean arithmetic of the open flags (line 118-119): the append flag
holds exactly for a 206 status with prior bytes, and the truncate flag is
its negation. -/
theorem open_flags_spec (s d : Nat) :
    (((s == 206 && decide (0 < d)) = true) ↔ (s = 206 ∧ 0 < d)) ∧
      (!(s == 206) || d == 0) = !(s == 206 && decide (0 < d)) := by
  constructor
  · simp
  · cases h : (s == 206) <;> cases d <;> simp

/-- The open mode recorded by an attempt: append exactly when the status
was 206 and prior bytes existed, truncate otherwise. -/
theorem attempt_openMode (env : Env) (url : String) (path : Path) (fs : Fs)
    (s : Nat) (cl : Option Nat) (evs : List ChunkEvent) (t a : Bool)
    (hsend : env.send = SendOutcome.ok s cl evs)
    (h : (inner_download_attempt env url path fs).openMode = some (t, a)) :
    ((a = true) ↔ (s = 206 ∧ 0 < fsLen fs (tempFilePath path))) ∧ t = !a := by
  unfold inner_download_attempt at h
  rw [hsend] at h
  dsimp only at h
  split at h
  · simp at h
  · repeat' split at h
    all_goals
      simp only [Option.some.injEq, Prod.mk.injEq] at h
      obtain ⟨ht, ha⟩ := h
      subst ht
      subst ha
      exact ⟨(open_flags_spec s (fsLen fs (tempFilePath path))).1,
        (open_flags_spec s (fsLen fs (tempFilePath path))).2⟩

/-- Every per-chunk record of an attempt satisfies the flush-bound
property. -/
theorem attempt_records (env : Env) (url : String) (path : Path) (fs : Fs) :
    ∀ r ∈ (inner_download_attempt env url path fs).records, recordOk r := by
  unfold inner_download_attempt
  cases hsend : env.send with
  | err b => intro r hr; simp at hr
  | ok s cl evs =>
      dsimp only
      have hloop : ∀ sEnd : LoopSt,
          (runLoop env.writeFails env.flushFails (tempFilePath path) evs
            ⟨fsLen fs (tempFilePath path),
              DownloadState.new url (fsLen fs (tempFilePath path))
                (cl.getD 0 + fsLen fs (tempFilePath path)),
              [],
              if (!(s == 206) || fsLen fs (tempFilePath path) == 0) = true then
                fsSet fs (tempFilePath path) []
              else fsSet fs (tempFilePath path) ((fsGet fs (tempFilePath path)).getD []),
              [Event.request (fsLen fs (tempFilePath path))] ++
                [Event.openFile (tempFilePath path)
                    (!(s == 206) || fsLen fs (tempFilePath path) == 0)
                    (s == 206 && decide (0 < fsLen fs (tempFilePath path))),
                  Event.setLength (cl.getD 0 + fsLen fs (tempFilePath path)),
                  Event.setPosition (fsLen fs (tempFilePath path))],
              []⟩).1 = sEnd →
          ∀ r ∈ sEnd.records, recordOk r := by
        intro sEnd h1 r hr
        rw [← h1] at hr
        refine runLoop_records _ _ _ _ _ ?_ ?_ r hr
        · norm_num [flushThreshold]
        · intro r2 hr2
          simp at hr2
      split
      · intro r hr; simp at hr
      · split
        · intro r hr; simp at hr
        · split
          · next sEnd e2 heq =>
            intro r hr
            dsimp only at hr
            exact hloop sEnd (congrArg Prod.fst heq) r hr
          · next sEnd heq =>
            split
            · intro r hr
              dsimp only at hr
              exact hloop sEnd (congrArg Prod.fst heq) r hr
            · split
              · intro r hr
                dsimp only at hr
                rw [flushBuf_records] at hr
                exact hloop sEnd (congrArg Prod.fst heq) r hr
              · intro r hr
                dsimp only at hr
                rw [flushBuf_records] at hr
                exact hloop sEnd (congrArg Prod.fst heq) r hr

/-! ### Retry-run lemmas -/

/-- In every attempt of a retry run, the range-request offset equals the
on-disk temp length probed at the start of that same attempt. -/
theorem retryRun_offsets (url : String) (path : Path) :
    ∀ (envs : List Env) (fs : Fs), ∀ p ∈ (retryRun url path envs fs).offsets, p.2 = p.1 := by
  intro envs
  induction envs with
  | nil => intro fs p hp; simp [retryRun] at hp
  | cons env rest ih =>
      intro fs p hp
      have hbase : ((fsLen fs (tempFilePath path),
          (inner_download_attempt env url path fs).reqOffset) : Nat × Nat).2 =
          (fsLen fs (tempFilePath path),
            (inner_download_attempt env url path fs).reqOffset).1 :=
        attempt_reqOffset env url path fs
      unfold retryRun at hp
      split at hp
      · dsimp only at hp
        split at hp <;> (simp only [List.mem_singleton] at hp; subst hp; exact hbase)
      · dsimp only at hp
        split at hp
        · simp only [List.mem_singleton] at hp; subst hp; exact hbase
        · simp only [List.mem_singleton] at hp; subst hp; exact hbase
        · dsimp only at hp
          simp only [List.mem_cons] at hp
          rcases hp with hp | hp
          · subst hp; exact hbase
          · exact ih _ p hp

/-- Every event of a whole retry run that writes to some path either
targets the temp file or is the rename onto the destination. -/
theorem retryRun_trace_writes (url : String) (path : Path) :
    ∀ (envs : List Env) (fs : Fs), ∀ e ∈ (retryRun url path envs fs).trace, ∀ q,
      Event.writesTo e = some q →
      q = tempFilePath path ∨ e = Event.renameFile (tempFilePath path) path := by
  intro envs
  induction envs with
  | nil => intro fs e he; simp [retryRun] at he
  | cons env rest ih =>
      intro fs e he
      unfold retryRun at he
      split at he
      · dsimp only at he
        split at he <;> exact attempt_trace_writes env url path fs e he
      · dsimp only at he
        split at he
        · exact attempt_trace_writes env url path fs e he
        · exact attempt_trace_writes env url path fs e he
        · dsimp only at he
          simp only [List.mem_append] at he
          rcases he with he | he
          · exact attempt_trace_writes env url path fs e he
          · exact ih _ e he

/-- A retry run that ends in failure leaves every path other than the temp
file exactly as it was before the run. -/
theorem retryRun_fs_preserve (url : String) (path : Path) (q : Path)
    (hq : tempFilePath path ≠ q) :
    ∀ (envs : List Env) (fs : Fs) (e : Err),
      (retryRun url path envs fs).result = Except.error e →
      fsGet (retryRun url path envs fs).fs q = fsGet fs q := by
  intro envs
  induction envs with
  | nil => intro fs e _; rfl
  | cons env rest ih =>
      intro fs e h
      unfold retryRun at h ⊢
      dsimp only at h ⊢
      split at h
      · simp at h
      · next e2 heq =>
        exact attempt_fs_preserve env url path fs q hq (by rw [heq]; simp)
      · next e2 heq =>
        split at h
        · next hemp =>
          rw [if_pos hemp]
          exact attempt_fs_preserve env url path fs q hq (by rw [heq]; simp)
        · next hemp =>
          rw [if_neg hemp]
          dsimp only at h ⊢
          rw [ih _ _ h]
          exact attempt_fs_preserve env url path fs q hq (by rw [heq]; simp)

/-- An attempt failing with a permanent error ends the retry run at once:
one attempt total, and the permanent error becomes the run's result. -/
theorem retryRun_permanent (url : String) (path : Path) (env : Env) (rest : List Env)
    (fs : Fs) (e : Err)
    (h : (inner_download_attempt env url path fs).result =
      Except.error (Classified.permanent e)) :
    (retryRun url path (env :: rest) fs).attempts = 1 ∧
      (retryRun url path (env :: rest) fs).result = Except.error e := by
  unfold retryRun
  dsimp only
  rw [h]
  exact ⟨rfl, rfl⟩

/-- An attempt failing with a transient error while schedule remains makes
the run continue: the attempt count grows by one and the rest of the run
starts from the filesystem the failed attempt left behind. -/
theorem retryRun_transient_cons (url : String) (path : Path) (env r1 : Env) (rs : List Env)
    (fs : Fs) (e : Err)
    (h : (inner_download_attempt env url path fs).result =
      Except.error (Classified.transient e)) :
    (retryRun url path (env :: r1 :: rs) fs).attempts =
      1 + (retryRun url path (r1 :: rs) (inner_download_attempt env url path fs).fs).attempts ∧
    (retryRun url path (env :: r1 :: rs) fs).result =
      (retryRun url path (r1 :: rs) (inner_download_attempt env url path fs).fs).result := by
  unfold retryRun
  dsimp only
  rw [h]
  simp only [List.isEmpty_cons, Bool.false_eq_true, if_false]
  exact ⟨rfl, rfl⟩

/-! ### Scheduler lemmas -/

theorem downloadStep_cons (t : TaskPhase) {ts ts' : List TaskPhase}
    (h : DownloadStep ts ts') : DownloadStep (t :: ts) (t :: ts') := by
  cases h with
  | start i hi => exact DownloadStep.start (t :: ts) (i + 1) hi
  | finish i hi => exact DownloadStep.finish (t :: ts) (i + 1) hi

theorem downloadReachable_cons (t : TaskPhase) {a b : List TaskPhase}
    (h : downloadReachable a b) : downloadReachable (t :: a) (t :: b) := by
  induction h with
  | refl => exact Relation.ReflTransGen.refl
  | tail _ hbc ih => exact Relation.ReflTransGen.tail ih (downloadStep_cons t hbc)

/-- From the initial configuration of `download` with m tasks, the state in
which every task is simultaneously streaming is reachable: nothing in the
code gates entry to the streaming phase. -/
theorem download_all_streaming (m : Nat) :
    downloadReachable (downloadInit m) (List.replicate m TaskPhase.streaming) := by
  induction m with
  | zero => exact Relation.ReflTransGen.refl
  | succ m ih =>
      have hstep : DownloadStep (downloadInit (m + 1))
          (TaskPhase.streaming :: downloadInit m) :=
        DownloadStep.start (TaskPhase.pending :: downloadInit m) 0 rfl
      exact Relation.ReflTransGen.head hstep (downloadReachable_cons _ ih)

theorem streamingCount_replicate (m : Nat) :
    streamingCount (List.replicate m TaskPhase.streaming) = m := by
  induction m with
  | zero => rfl
  | succ m ih =>
      simp [streamingCount, List.replicate_succ, List.countP_cons] at ih ⊢
      omega

/-! ### Claim theorems -/

/-- C1 counterexample: the claim fails for an absolute destination path.
Because the temp path is `temp_dir.join(path)` and Rust `join` replaces the
base for an absolute argument, the temp file IS the destination: the
streaming flush `writeFile` event targets the destination path and is not a
rename, so an operation other than the single atomic rename writes to the
destination path. -/
theorem C1_counterexample :
    tempFilePath destAbs = destAbs ∧
    Event.writeFile destAbs [1, 2, 3] ∈ (inner_download_attempt envOk sampleUrl destAbs []).trace ∧
    Event.writesTo (Event.writeFile destAbs [1, 2, 3]) = some destAbs ∧
    Event.writeFile destAbs [1, 2, 3] ≠ Event.renameFile destAbs destAbs := by
  decide

/-- C1 (amended: restricted to relative destination paths, for which the
temp path differs from the destination): during a whole retry run, every
event that writes to the destination path is the atomic rename of the temp
file onto it; a run that ends in failure leaves the destination untouched;
and within a successful attempt the rename is the final operation, coming
after the unconditional final flush (empty final buffer), so the
destination only ever receives the completely streamed temp file. -/
theorem C1_dest_written_only_by_rename (url : String) (path : Path) (envs : List Env)
    (fs : Fs) (hrel : path.absolute = false) :
    (∀ e ∈ (retryRun url path envs fs).trace, Event.writesTo e = some path →
      e = Event.renameFile (tempFilePath path) path) ∧
    (∀ err : Err, (retryRun url path envs fs).result = Except.error err →
      fsGet (retryRun url path envs fs).fs path = fsGet fs path) ∧
    (∀ (env : Env) (fs2 : Fs),
      (inner_download_attempt env url path fs2).result = Except.ok () →
      ∃ pre, (inner_download_attempt env url path fs2).trace =
          pre ++ [Event.finishMessage, Event.renameFile (tempFilePath path) path] ∧
        (inner_download_attempt env url path fs2).finalBuffer = some []) := by
  have hne := tempFilePath_ne path hrel
  refine ⟨?_, ?_, ?_⟩
  · intro e he hw
    rcases retryRun_trace_writes url path envs fs e he path hw with h | h
    · exact absurd h.symm hne
    · exact h
  · intro err h
    exact retryRun_fs_preserve url path path hne envs fs err h
  · intro env fs2 h
    exact attempt_success_shape env url path fs2 h

/-- Witness for C1: a concrete failing run against a relative destination
leaves the destination entry of the filesystem unchanged. -/
theorem C1_witness :
    fsGet (retryRun sampleUrl destRel [env404] []).fs destRel = fsGet ([] : Fs) destRel :=
  (C1_dest_written_only_by_rename sampleUrl destRel [env404] [] rfl).2.1
    (Err.httpStatus 404) (by decide)

/-- C2 (confirmed): at the start of every attempt the downloaded count is
re-derived as the on-disk byte length of the temp file (0 when absent) and
the range request of that attempt asks for bytes from exactly that offset;
across a retry run, every attempt's request offset equals the temp length
probed at that attempt's start, never a value carried over in memory. -/
theorem C2_offset_probed_from_disk (url : String) (path : Path) (envs : List Env) (fs : Fs) :
    (∀ env : Env,
      (inner_download_attempt env url path fs).reqOffset = fsLen fs (tempFilePath path) ∧
      (inner_download_attempt env url path fs).probedLen = fsLen fs (tempFilePath path)) ∧
    (∀ p ∈ (retryRun url path envs fs).offsets, p.2 = p.1) :=
  ⟨fun env => ⟨attempt_reqOffset env url path fs, attempt_probedLen env url path fs⟩,
    retryRun_offsets url path envs fs⟩

/-- Witness for C2: with three bytes already on disk, the request offset of
the attempt is 3. -/
theorem C2_witness :
    ((inner_download_attempt env206 sampleUrl destRel [(tempFilePath destRel, [9, 9, 9])]).reqOffset =
      fsLen [(tempFilePath destRel, [9, 9, 9])] (tempFilePath destRel) ∧
    (inner_download_attempt env206 sampleUrl destRel [(tempFilePath destRel, [9, 9, 9])]).probedLen =
      fsLen [(tempFilePath destRel, [9, 9, 9])] (tempFilePath destRel)) ∧
    ((3, 3) : Nat × Nat).2 = ((3, 3) : Nat × Nat).1 :=
  ⟨(C2_offset_probed_from_disk sampleUrl destRel [env206]
      [(tempFilePath destRel, [9, 9, 9])]).1 env206,
    (C2_offset_probed_from_disk sampleUrl destRel [env206]
      [(tempFilePath destRel, [9, 9, 9])]).2 (3, 3) (by decide)⟩

/-- C3 (confirmed): the temp file is opened in append mode if and only if
the response status is 206 (partial content) and the probed length is
positive; in every other case the truncate flag is set (truncate is the
exact negation of append). -/
theorem C3_append_iff_partial_and_resume (env : Env) (url : String) (path : Path) (fs : Fs)
    (s : Nat) (cl : Option Nat) (evs : List ChunkEvent) (t a : Bool)
    (hsend : env.send = SendOutcome.ok s cl evs)
    (hopen : (inner_download_attempt env url path fs).openMode = some (t, a)) :
    ((a = true) ↔ (s = 206 ∧ 0 < fsLen fs (tempFilePath path))) ∧ t = !a :=
  attempt_openMode env url path fs s cl evs t a hsend hopen

/-- Witness for C3: a 206 response with three prior bytes opens in append
mode with the truncate flag cleared. -/
theorem C3_witness :
    ((true = true) ↔
      (206 = 206 ∧ 0 < fsLen [(tempFilePath destRel, [9, 9, 9])] (tempFilePath destRel))) ∧
    false = !true :=
  C3_append_iff_partial_and_resume env206 sampleUrl destRel
    [(tempFilePath destRel, [9, 9, 9])] 206 (some 2) [ChunkEvent.chunk [4, 5]]
    false true rfl (by decide)

/-- C4 (confirmed): filesystem errors (open, write, flush, rename) are
never classified transient, and when an attempt fails with a permanent
error the retry run stops immediately after that single attempt with that
error as the task's result. -/
theorem C4_fs_errors_fatal (env : Env) (url : String) (path : Path) (fs : Fs) (e : Err)
    (rest : List Env) :
    (fsErr e → (inner_download_attempt env url path fs).result ≠
      Except.error (Classified.transient e)) ∧
    ((inner_download_attempt env url path fs).result =
        Except.error (Classified.permanent e) →
      (retryRun url path (env :: rest) fs).attempts = 1 ∧
        (retryRun url path (env :: rest) fs).result = Except.error e) := by
  constructor
  · intro hfs hres
    rcases hfs with rfl | rfl | rfl | rfl <;>
      rcases attempt_transient_shape env url path fs _ hres with h | ⟨b, h⟩ | ⟨n, h⟩ | ⟨b, h⟩ <;>
        simp at h
  · intro h
    exact retryRun_permanent url path env rest fs e h

/-- Witness for C4: a failing open is not transient, and the run aborts
after exactly one attempt with the open error, ignoring the rest of the
schedule. -/
theorem C4_witness :
    (inner_download_attempt envOpenFail sampleUrl destRel []).result ≠
      Except.error (Classified.transient Err.openErr) ∧
    (retryRun sampleUrl destRel [envOpenFail, envOk] []).attempts = 1 ∧
    (retryRun sampleUrl destRel [envOpenFail, envOk] []).result = Except.error Err.openErr :=
  ⟨(C4_fs_errors_fatal envOpenFail sampleUrl destRel [] Err.openErr [envOk]).1 (Or.inl rfl),
    (C4_fs_errors_fatal envOpenFail sampleUrl destRel [] Err.openErr [envOk]).2 (by decide)⟩

/-- C5 (confirmed): a response with a non-success HTTP status makes the
attempt fail with a transient (retryable) classification carrying that
status — never a permanent one — and the run re-enters the retry schedule,
performing a further attempt. -/
theorem C5_nonsuccess_transient (env : Env) (url : String) (path : Path) (fs : Fs)
    (s : Nat) (cl : Option Nat) (evs : List ChunkEvent) (r1 : Env) (rs : List Env)
    (hsend : env.send = SendOutcome.ok s cl evs) (hs : isSuccessStatus s = false) :
    (inner_download_attempt env url path fs).result =
      Except.error (Classified.transient (Err.httpStatus s)) ∧
    (retryRun url path (env :: r1 :: rs) fs).attempts =
      1 + (retryRun url path (r1 :: rs) fs).attempts := by
  obtain ⟨h1, h2⟩ := attempt_nonsuccess env url path fs s cl evs hsend hs
  refine ⟨h1, ?_⟩
  have h3 := retryRun_transient_cons url path env r1 rs fs (Err.httpStatus s) h1
  rw [h2] at h3
  exact h3.1

/-- Witness for C5: a 404 response is a transient failure and the run goes
on to the next attempt. -/
theorem C5_witness :
    (inner_download_attempt env404 sampleUrl destRel []).result =
      Except.error (Classified.transient (Err.httpStatus 404)) ∧
    (retryRun sampleUrl destRel [env404, envOk] []).attempts =
      1 + (retryRun sampleUrl destRel [envOk] []).attempts :=
  C5_nonsuccess_transient env404 sampleUrl destRel [] 404 none [] envOk [] rfl (by decide)

/-- C6 counterexample: the claim fails because `download` has no
concurrency limiter at all: with three tasks the scheduler can reach a
state in which all three are streaming at once, exceeding the claimed bound
of 2 (there is also no `max_concurrent` configuration field to acquire a
permit from). -/
theorem C6_counterexample :
    downloadReachable (downloadInit 3)
      [TaskPhase.streaming, TaskPhase.streaming, TaskPhase.streaming] ∧
    streamingCount [TaskPhase.streaming, TaskPhase.streaming, TaskPhase.streaming] = 3 ∧
    ¬ streamingCount [TaskPhase.streaming, TaskPhase.streaming, TaskPhase.streaming] ≤ 2 :=
  ⟨download_all_streaming 3, by decide, by decide⟩

/-- C6 (amended): `download` runs all tasks concurrently with no permit
pool and no concurrency bound: for every batch size m, the state in which
all m tasks are simultaneously in the Streaming phase is reachable. -/
theorem C6_no_concurrency_bound (m : Nat) :
    downloadReachable (downloadInit m) (List.replicate m TaskPhase.streaming) ∧
    streamingCount (List.replicate m TaskPhase.streaming) = m :=
  ⟨download_all_streaming m, streamingCount_replicate m⟩

/-- C7 counterexample: in a successful attempt the terminal progress
message is emitted strictly before the rename, not after it — refuting the
claimed order (rename first, then notification). -/
theorem C7_counterexample :
    Event.finishMessage ∈ (inner_download_attempt envOk sampleUrl destRel []).trace ∧
    Event.renameFile (tempFilePath destRel) destRel ∈
      (inner_download_attempt envOk sampleUrl destRel []).trace ∧
    (inner_download_attempt envOk sampleUrl destRel []).trace.indexOf Event.finishMessage <
      (inner_download_attempt envOk sampleUrl destRel []).trace.indexOf
        (Event.renameFile (tempFilePath destRel) destRel) := by
  decide

/-- C7 (amended): within a successful attempt the finalizing order is:
unconditional flush of all remaining buffered bytes (the final buffer is
empty), then the terminal ProgressSink message, and then — last of all —
the atomic rename of the temp file onto the destination: the completion
notification precedes the rename rather than following it. -/
theorem C7_flush_then_message_then_rename (env : Env) (url : String) (path : Path) (fs : Fs)
    (h : (inner_download_attempt env url path fs).result = Except.ok ()) :
    ∃ pre, (inner_download_attempt env url path fs).trace =
        pre ++ [Event.finishMessage, Event.renameFile (tempFilePath path) path] ∧
      (inner_download_attempt env url path fs).finalBuffer = some [] :=
  attempt_success_shape env url path fs h

/-- Witness for C7: the concrete successful attempt ends with the message
followed by the rename, with an empty final buffer. -/
theorem C7_witness :
    ∃ pre, (inner_download_attempt envOk sampleUrl destRel []).trace =
        pre ++ [Event.finishMessage, Event.renameFile (tempFilePath destRel) destRel] ∧
      (inner_download_attempt envOk sampleUrl destRel []).finalBuffer = some [] :=
  C7_flush_then_message_then_rename envOk sampleUrl destRel [] (by decide)

/-- C8 counterexample: for a destination path with a directory component
the temp path is the temp dir joined with the WHOLE destination path, not
with its basename as claimed. -/
theorem C8_counterexample :
    tempFilePath destDir ≠ specTempPath destDir ∧
    tempFilePath destDir = ⟨true, ["tmp", "a", "b.bin"]⟩ ∧
    specTempPath destDir = ⟨true, ["tmp", "b.bin"]⟩ := by
  decide

/-- C8 (amended): the temp file path is the process temp directory joined
with the entire destination path under Rust join semantics — an absolute
destination replaces the temp directory and becomes its own temp path —
and it coincides with the spec's temp-dir-plus-basename form exactly for
single-component relative destinations. -/
theorem C8_temp_is_full_join (path : Path) :
    tempFilePath path = Path.join tempDir path ∧
    (path.absolute = true → tempFilePath path = path) ∧
    (path.absolute = false → path.components.length = 1 →
      tempFilePath path = specTempPath path) := by
  refine ⟨rfl, ?_, ?_⟩
  · intro h
    simp [tempFilePath, Path.join, h]
  · intro h hl
    rcases path with ⟨abs, comps⟩
    dsimp only at h hl
    subst h
    rcases comps with _ | ⟨c, rest⟩
    · simp at hl
    · rcases rest with _ | ⟨c2, rest2⟩
      · simp [tempFilePath, specTempPath, Path.join, Path.basename, tempDir]
      · simp at hl

/-- Witness for C8: for the single-component relative destination the two
forms agree. -/
theorem C8_witness :
    tempFilePath destRel = Path.join tempDir destRel ∧
    tempFilePath destRel = specTempPath destRel :=
  ⟨(C8_temp_is_full_join destRel).1, (C8_temp_is_full_join destRel).2.2 rfl rfl⟩

/-- C9 (confirmed): for every chunk processed by an attempt, the buffer
level right after the write never exceeds the 512 KiB flush threshold by
more than that chunk's length; whenever the level reaches the threshold the
writer is flushed (leaving 0 buffered bytes), and the level at the end of
every iteration is strictly below the threshold. -/
theorem C9_flush_bound (env : Env) (url : String) (path : Path) (fs : Fs) :
    ∀ r ∈ (inner_download_attempt env url path fs).records,
      r.2.1 ≤ flushThreshold + r.1 ∧ (flushThreshold ≤ r.2.1 → r.2.2 = 0) ∧
        r.2.2 < flushThreshold :=
  fun r hr => attempt_records env url path fs r hr

/-- Witness for C9: the record of a three-byte chunk is within bounds. -/
theorem C9_witness :
    ((3 : Nat) ≤ flushThreshold + 3) ∧ (flushThreshold ≤ 3 → 3 = 0) ∧ 3 < flushThreshold :=
  C9_flush_bound envOk sampleUrl destRel [] (3, 3, 3) (by decide)

/-- C10 (confirmed; `DownloadState` modelled from the spec): when an
attempt probes L prior bytes but a full (non-206) success response of
content length C arrives, the temp file is truncated yet the in-memory
counters are not reset: the attempt succeeds reporting total bytes C + L
and a final position of C + L, while the file installed at the destination
holds exactly the C streamed bytes — position and total overshoot the real
file length by L. -/
theorem C10_nonpartial_resume_overshoot (url : String) (path : Path) (fs : Fs) (s : Nat)
    (ds : List Bytes) (prior : Bytes)
    (_hrel : path.absolute = false)
    (hprior : fsGet fs (tempFilePath path) = some prior)
    (_hlen : 0 < prior.length)
    (hs : isSuccessStatus s = true) (h206 : s ≠ 206) :
    (inner_download_attempt
        ⟨SendOutcome.ok s (some (totalLen ds)) (List.map ChunkEvent.chunk ds),
          false, false, false, false⟩ url path fs).result = Except.ok () ∧
    (inner_download_attempt
        ⟨SendOutcome.ok s (some (totalLen ds)) (List.map ChunkEvent.chunk ds),
          false, false, false, false⟩ url path fs).totalSize =
      some (totalLen ds + prior.length) ∧
    (inner_download_attempt
        ⟨SendOutcome.ok s (some (totalLen ds)) (List.map ChunkEvent.chunk ds),
          false, false, false, false⟩ url path fs).finalPos =
      some (prior.length + totalLen ds) ∧
    fsGet (inner_download_attempt
        ⟨SendOutcome.ok s (some (totalLen ds)) (List.map ChunkEvent.chunk ds),
          false, false, false, false⟩ url path fs).fs path = some ds.flatten ∧
    ds.flatten.length = totalLen ds := by
  have hpl : fsLen fs (tempFilePath path) = prior.length := by
    simp [fsLen, hprior]
  have htr : (!(s == 206) || fsLen fs (tempFilePath path) == 0) = true := by
    have h1 : (s == 206) = false := by
      simp [h206]
    rw [h1]
    rfl
  unfold inner_download_attempt
  dsimp only
  rw [if_neg (by simp [hs]), if_neg Bool.false_ne_true, if_pos htr]
  split
  · next sEnd e2 heq =>
    exfalso
    have h2 := congrArg Prod.snd heq
    dsimp only at h2
    rw [(runLoop_chunks (tempFilePath path) ds _).1] at h2
    exact Option.noConfusion h2
  · next sEnd heq =>
    have hfst := congrArg Prod.fst heq
    dsimp only at hfst
    rw [if_neg Bool.false_ne_true, if_neg Bool.false_ne_true]
    refine ⟨rfl, ?_, ?_, ?_, ?_⟩
    · dsimp only
      rw [hpl]
      rfl
    · dsimp only
      rw [flushBuf_dstate, ← hfst, (runLoop_chunks (tempFilePath path) ds _).2.2.1]
      dsimp only [DownloadState.new]
      rw [hpl]
    · dsimp only
      rw [fsGet_fsSet_self, flushBuf_content, ← hfst,
        (runLoop_chunks (tempFilePath path) ds _).2.2.2.2]
      simp [fsGet_fsSet_self]
    · simp [totalLen, List.length_flatten]

/-- Witness for C10: one prior byte on disk, a 200 response of three bytes
in two chunks — the attempt succeeds reporting total 4 and final position
4 while the installed file holds exactly the 3 streamed bytes. -/
theorem C10_witness :
    (inner_download_attempt
        ⟨SendOutcome.ok 200 (some (totalLen [[1, 2], [3]]))
            (List.map ChunkEvent.chunk [[1, 2], [3]]),
          false, false, false, false⟩ sampleUrl destRel
        [(tempFilePath destRel, [9])]).result = Except.ok () ∧
    (inner_download_attempt
        ⟨SendOutcome.ok 200 (some (totalLen [[1, 2], [3]]))
            (List.map ChunkEvent.chunk [[1, 2], [3]]),
          false, false, false, false⟩ sampleUrl destRel
        [(tempFilePath destRel, [9])]).totalSize =
      some (totalLen [[1, 2], [3]] + List.length ([9] : Bytes)) ∧
    (inner_download_attempt
        ⟨SendOutcome.ok 200 (some (totalLen [[1, 2], [3]]))
            (List.map ChunkEvent.chunk [[1, 2], [3]]),
          false, false, false, false⟩ sampleUrl destRel
        [(tempFilePath destRel, [9])]).finalPos =
      some (List.length ([9] : Bytes) + totalLen [[1, 2], [3]]) ∧
    fsGet (inner_download_attempt
        ⟨SendOutcome.ok 200 (some (totalLen [[1, 2], [3]]))
            (List.map ChunkEvent.chunk [[1, 2], [3]]),
          false, false, false, false⟩ sampleUrl destRel
        [(tempFilePath destRel, [9])]).fs destRel = some (List.flatten [[1, 2], [3]]) ∧
    (List.flatten [[1, 2], [3]]).length = totalLen [[1, 2], [3]] :=
  C10_nonpartial_resume_overshoot sampleUrl destRel [(tempFilePath destRel, [9])] 200
    [[1, 2], [3]] [9] rfl (by decide) (by decide) (by decide) (by decide)

end ProgressDownloader
